import Mathlib

/-!
Verification of the settings-resolution core of an interactive
project-scaffolding wizard (create-typescript-package).

The TypeScript source is embedded shallowly: each function under
verification becomes a Lean definition over explicit environment records
that stand for the external world (filesystem probes, shell git queries,
HTTP responses, user keystrokes).  Optional JavaScript values are `Option`,
JavaScript truthiness of optional strings is the explicit `truthyO`, and
the null-coalescing operator is an explicit match on `Option`.
-/

set_option autoImplicit false

namespace CreateTypescriptPackage

/-- JavaScript truthiness of an optional string: `undefined` and the empty
string are falsy, every other string is truthy. -/
def truthyO (o : Option String) : Bool :=
  match o with
  | none => false
  | some s => !s.isEmpty

/-- JavaScript null-coalescing `a ?? b` on optional values: only
`undefined`/`null` (here `none`) falls through, the empty string does not. -/
def coalesce {α : Type} (a b : Option α) : Option α :=
  match a with
  | some x => some x
  | none => b

end CreateTypescriptPackage

namespace CreateTypescriptPackage

/-! ## Fuzzy repository name matching (`trashSearch`, unnamed/part_004) -/

/-- A character kept by the normalizer: lowercase ASCII letter or digit
(the JavaScript regex class `[a-z0-9]` applied after lowercasing). -/
def isLowerAlnum (c : Char) : Bool :=
  (decide ('a' ≤ c) && decide (c ≤ 'z')) || (decide ('0' ≤ c) && decide (c ≤ '9'))

/-- `s.toLowerCase().replace(re, "")` where the regex removes every
character outside `[a-z0-9]`. -/
def normalize (s : String) : String :=
  ⟨(s.data.map Char.toLower).filter isLowerAlnum⟩

/-- Whether the haystack starts with the needle (character-wise). -/
def leadsWith : List Char → List Char → Bool
  | _, [] => true
  | [], _ :: _ => false
  | h :: hs, n :: ns => (h == n) && leadsWith hs ns

/-- JavaScript `hay.includes(ndl)`: the needle occurs contiguously in the
haystack. -/
def listIncludes (hay ndl : List Char) : Bool :=
  leadsWith hay ndl ||
    match hay with
    | [] => false
    | _ :: t => listIncludes t ndl

/-- The `flatMap` over the lowered haystack with its indices: keep the
entries whose normalized form contains the normalized needle. -/
def matchesFrom (needleLower : List Char) : Nat → List String → List (String × Nat)
  | _, [] => []
  | i, x :: xs =>
    (if listIncludes x.data needleLower then [(x, i)] else []) ++
      matchesFrom needleLower (i + 1) xs

/-- The fuzzy matcher `trashSearch` of unnamed/part_004: normalize needle
and haystack, keep substring matched entries, then pick by (1) original string
equal to the needle, (2) normalized string equal to the normalized needle,
(3) first match, and return the original haystack string at that index. -/
def trashSearch (needle : String) (haystack : List String) : Option String :=
  let haystackLower := haystack.map normalize
  let needleLower := normalize needle
  let foundMatches := matchesFrom needleLower.data 0 haystackLower
  if foundMatches.isEmpty then
    none
  else
    let pick :=
      match foundMatches.find? (fun (m : String × Nat) => haystack.get? m.2 == some needle) with
      | some m => some m
      | none =>
        match foundMatches.find? (fun (m : String × Nat) => m.1 == needleLower) with
        | some m => some m
        | none => foundMatches.head?
    pick.bind (fun (m : String × Nat) => haystack.get? m.2)

theorem leadsWith_self (l : List Char) : leadsWith l l = true := by
  induction l with
  | nil => rfl
  | cons h t ih => simp [leadsWith, ih]

theorem listIncludes_self (l : List Char) : listIncludes l l = true := by
  cases l with
  | nil => rfl
  | cons h t => simp [listIncludes, leadsWith_self]

theorem mem_matchesFrom (nl : List Char) (x : String) (i : Nat) :
    ∀ (k : Nat) (l : List String),
      ((x, i) ∈ matchesFrom nl k l ↔
        ∃ j, l.get? j = some x ∧ i = k + j ∧ listIncludes x.data nl = true) := by
  intro k l
  induction l generalizing k with
  | nil =>
    simp [matchesFrom]
  | cons y ys ih =>
    simp only [matchesFrom, List.mem_append]
    constructor
    · intro h
      cases h with
      | inl h =>
        by_cases hinc : listIncludes y.data nl
        · simp only [hinc, if_true, List.mem_singleton, Prod.mk.injEq] at h
          exact ⟨0, by simp [h.1.symm], by omega, h.1 ▸ hinc⟩
        · simp [hinc] at h
      | inr h =>
        obtain ⟨j, hj, hk, hi⟩ := (ih (k + 1)).mp h
        exact ⟨j + 1, by simpa using hj, by omega, hi⟩
    · rintro ⟨j, hj, hk, hi⟩
      cases j with
      | zero =>
        left
        simp only [List.get?_cons_zero, Option.some.injEq] at hj
        subst hj
        simp [hi]
        omega
      | succ j =>
        right
        refine (ih (k + 1)).mpr ⟨j, by simpa using hj, by omega, hi⟩

theorem trashSearch_exact {needle : String} {haystack : List String}
    (h : needle ∈ haystack) : trashSearch needle haystack = some needle := by
  obtain ⟨j, hj⟩ := List.mem_iff_get?.mp h
  have hmapj : (haystack.map normalize).get? j = some (normalize needle) := by
    rw [List.get?_map, hj]; rfl
  have hmem : (normalize needle, j) ∈
      matchesFrom (normalize needle).data 0 (haystack.map normalize) :=
    (mem_matchesFrom _ _ _ 0 _).mpr ⟨j, hmapj, by omega, listIncludes_self _⟩
  have hne : matchesFrom (normalize needle).data 0 (haystack.map normalize) ≠ [] :=
    List.ne_nil_of_mem hmem
  have hfind : (List.find?
      (fun (m : String × Nat) => haystack.get? m.2 == some needle)
      (matchesFrom (normalize needle).data 0 (haystack.map normalize))).isSome := by
    rw [List.find?_isSome]
    refine ⟨(normalize needle, j), hmem, ?_⟩
    show (haystack.get? j == some needle) = true
    rw [hj]
    exact beq_self_eq_true _
  obtain ⟨m, hm⟩ := Option.isSome_iff_exists.mp hfind
  have hpm : haystack.get? m.2 = some needle := by
    have := List.find?_some hm
    exact eq_of_beq this
  simp only [trashSearch, List.isEmpty_eq_false.mpr hne, Bool.false_eq_true,
    if_false, hm, Option.some_bind, hpm]

theorem trashSearch_no_match {needle : String} {haystack : List String}
    (h : ∀ x ∈ haystack, listIncludes (normalize x).data (normalize needle).data = false) :
    trashSearch needle haystack = none := by
  have hnil : matchesFrom (normalize needle).data 0 (haystack.map normalize) = [] := by
    cases hM : matchesFrom (normalize needle).data 0 (haystack.map normalize) with
    | nil => rfl
    | cons m rest =>
      exfalso
      have hmem : m ∈ matchesFrom (normalize needle).data 0 (haystack.map normalize) := by
        rw [hM]; exact List.mem_cons_self _ _
      obtain ⟨j, hj, _, hi⟩ := (mem_matchesFrom _ m.1 m.2 0 _).mp hmem
      rw [List.get?_map] at hj
      cases hx : haystack.get? j with
      | none => rw [hx] at hj; simp at hj
      | some y =>
        rw [hx] at hj
        simp only [Option.map_some', Option.some.injEq] at hj
        have := h y (List.get?_mem hx)
        rw [hj] at this
        rw [this] at hi
        exact Bool.false_ne_true hi
  simp [trashSearch, hnil]

theorem trashSearch_sound {needle r : String} {haystack : List String}
    (h : trashSearch needle haystack = some r) :
    r ∈ haystack ∧ listIncludes (normalize r).data (normalize needle).data = true := by
  simp only [trashSearch] at h
  by_cases hE :
      (matchesFrom (normalize needle).data 0 (haystack.map normalize)).isEmpty
  · rw [if_pos hE] at h; exact absurd h (by simp)
  · rw [if_neg hE] at h
    obtain ⟨m, hpick, hget⟩ := Option.bind_eq_some.mp h
    have hmem : m ∈ matchesFrom (normalize needle).data 0 (haystack.map normalize) := by
      revert hpick
      cases h1 : List.find?
          (fun (m : String × Nat) => haystack.get? m.2 == some needle)
          (matchesFrom (normalize needle).data 0 (haystack.map normalize)) with
      | some m1 =>
        intro hpick
        simp only [Option.some.injEq] at hpick
        exact hpick ▸ List.mem_of_find?_eq_some h1
      | none =>
        cases h2 : List.find?
            (fun (m : String × Nat) => m.1 == normalize needle)
            (matchesFrom (normalize needle).data 0 (haystack.map normalize)) with
        | some m2 =>
          intro hpick
          simp only [Option.some.injEq] at hpick
          exact hpick ▸ List.mem_of_find?_eq_some h2
        | none =>
          intro hpick
          cases h3 : matchesFrom (normalize needle).data 0 (haystack.map normalize) with
          | nil => rw [h3] at hpick; exact absurd hpick (by simp)
          | cons a rest =>
            rw [h3] at hpick
            simp only [List.head?_cons, Option.some.injEq] at hpick
            subst hpick
            simp [h3]
    obtain ⟨j, hj, hji, hinc⟩ := (mem_matchesFrom _ m.1 m.2 0 _).mp hmem
    rw [List.get?_map] at hj
    cases hx : haystack.get? j with
    | none => rw [hx] at hj; exact absurd hj (by simp)
    | some y =>
      rw [hx] at hj
      simp only [Option.map_some', Option.some.injEq] at hj
      have hry : y = r := by
        have : haystack.get? m.2 = some r := hget
        rw [hji] at this
        simp only [Nat.zero_add] at this
        rw [hx] at this
        exact Option.some.injEq .. ▸ (by simpa using this)
      subst hry
      exact ⟨List.get?_mem hget, by rw [← hj] at hinc; exact hinc⟩

theorem find?_beq_matchesFrom (target : String) (nl : List Char) :
    ∀ (l : List String) (k j : Nat) (y : String),
      l.get? j = some y → (y == target) = true →
      listIncludes y.data nl = true →
      (∀ i x, i < j → l.get? i = some x →
        listIncludes x.data nl = false ∨ (x == target) = false) →
      List.find? (fun (m : String × Nat) => m.1 == target) (matchesFrom nl k l) =
        some (y, k + j) := by
  intro l
  induction l with
  | nil =>
    intro k j y hj _ _ _
    exact absurd hj (by simp)
  | cons a as ih =>
    intro k j y hj hbeq hinc hearlier
    cases j with
    | zero =>
      simp only [List.get?_cons_zero, Option.some.injEq] at hj
      subst hj
      simp only [matchesFrom, hinc, if_true, List.singleton_append, Nat.add_zero]
      exact List.find?_cons_of_pos _ hbeq
    | succ j =>
      have hj2 : as.get? j = some y := by simpa using hj
      have hshift : ∀ i x, i < j → as.get? i = some x →
          listIncludes x.data nl = false ∨ (x == target) = false :=
        fun i x hi hx => hearlier (i + 1) x (by omega) (by simpa using hx)
      have hidx : k + (j + 1) = (k + 1) + j := by omega
      by_cases hia : listIncludes a.data nl
      · have h0 := hearlier 0 a (Nat.succ_pos j) (by simp)
        have hpa : (a == target) = false := by
          rcases h0 with h | h
          · rw [hia] at h
            exact absurd h (by simp)
          · exact h
        simp only [matchesFrom, hia, if_true, List.singleton_append]
        rw [List.find?_cons_of_neg _ (by simp [hpa]), hidx]
        exact ih (k + 1) j y hj2 hbeq hinc hshift
      · simp only [matchesFrom, hia, Bool.false_eq_true, if_false, List.nil_append]
        rw [hidx]
        exact ih (k + 1) j y hj2 hbeq hinc hshift

theorem head?_matchesFrom (nl : List Char) :
    ∀ (l : List String) (k j : Nat) (y : String),
      l.get? j = some y → listIncludes y.data nl = true →
      (∀ i x, i < j → l.get? i = some x → listIncludes x.data nl = false) →
      (matchesFrom nl k l).head? = some (y, k + j) := by
  intro l
  induction l with
  | nil =>
    intro k j y hj _ _
    exact absurd hj (by simp)
  | cons a as ih =>
    intro k j y hj hinc hearlier
    cases j with
    | zero =>
      simp only [List.get?_cons_zero, Option.some.injEq] at hj
      subst hj
      simp only [matchesFrom, hinc, if_true, List.singleton_append,
        List.head?_cons, Nat.add_zero]
    | succ j =>
      have h0 := hearlier 0 a (Nat.succ_pos j) (by simp)
      simp only [matchesFrom, h0, Bool.false_eq_true, if_false, List.nil_append]
      have hidx : k + (j + 1) = (k + 1) + j := by omega
      rw [hidx]
      exact ih (k + 1) j y (by simpa using hj) hinc
        (fun i x hi hx => hearlier (i + 1) x (by omega) (by simpa using hx))

theorem find?_original_eq_none {needle : String} {haystack : List String}
    (hmem : needle ∉ haystack) :
    List.find? (fun (m : String × Nat) => haystack.get? m.2 == some needle)
      (matchesFrom (normalize needle).data 0 (haystack.map normalize)) = none := by
  rw [List.find?_eq_none]
  intro m _
  simp only [Bool.not_eq_true, beq_eq_false_iff_ne, ne_eq]
  intro hgm
  exact hmem (List.get?_mem hgm)

theorem trashSearch_normalized_first {needle y : String} {haystack : List String}
    {j : Nat}
    (hmem : needle ∉ haystack)
    (hj : haystack.get? j = some y)
    (hy : normalize y = normalize needle)
    (hearlier : ∀ i x, i < j → haystack.get? i = some x →
      normalize x ≠ normalize needle) :
    trashSearch needle haystack = some y := by
  have hmapj : (haystack.map normalize).get? j = some (normalize y) := by
    rw [List.get?_map, hj]; rfl
  have hincy : listIncludes (normalize y).data (normalize needle).data = true := by
    rw [hy]; exact listIncludes_self _
  have hne : matchesFrom (normalize needle).data 0 (haystack.map normalize) ≠ [] :=
    List.ne_nil_of_mem ((mem_matchesFrom _ (normalize y) j 0 _).mpr
      ⟨j, hmapj, by omega, hincy⟩)
  have hfind1 := find?_original_eq_none hmem
  have hfind2 : List.find? (fun (m : String × Nat) => m.1 == normalize needle)
      (matchesFrom (normalize needle).data 0 (haystack.map normalize)) =
      some (normalize y, 0 + j) := by
    refine find?_beq_matchesFrom (normalize needle) (normalize needle).data
      (haystack.map normalize) 0 j (normalize y) hmapj (by rw [hy]; exact beq_self_eq_true _)
      hincy ?_
    intro i x hi hx
    right
    rw [List.get?_map] at hx
    cases hgi : haystack.get? i with
    | none =>
      rw [hgi] at hx
      exact absurd hx (by simp)
    | some orig =>
      rw [hgi] at hx
      simp only [Option.map_some', Option.some.injEq] at hx
      rw [← hx]
      exact beq_eq_false_iff_ne.mpr (hearlier i orig hi hgi)
  rw [show (0 : Nat) + j = j from by omega] at hfind2
  simp only [trashSearch, List.isEmpty_eq_false.mpr hne, Bool.false_eq_true,
    if_false, hfind1, hfind2, Option.some_bind, hj]

theorem trashSearch_first_match {needle y : String} {haystack : List String}
    {j : Nat}
    (hmem : needle ∉ haystack)
    (hnonorm : ∀ x ∈ haystack, normalize x ≠ normalize needle)
    (hj : haystack.get? j = some y)
    (hincy : listIncludes (normalize y).data (normalize needle).data = true)
    (hearlier : ∀ i x, i < j → haystack.get? i = some x →
      listIncludes (normalize x).data (normalize needle).data = false) :
    trashSearch needle haystack = some y := by
  have hmapj : (haystack.map normalize).get? j = some (normalize y) := by
    rw [List.get?_map, hj]; rfl
  have hne : matchesFrom (normalize needle).data 0 (haystack.map normalize) ≠ [] :=
    List.ne_nil_of_mem ((mem_matchesFrom _ (normalize y) j 0 _).mpr
      ⟨j, hmapj, by omega, hincy⟩)
  have hfind1 := find?_original_eq_none hmem
  have hfind2 : List.find? (fun (m : String × Nat) => m.1 == normalize needle)
      (matchesFrom (normalize needle).data 0 (haystack.map normalize)) = none := by
    rw [List.find?_eq_none]
    intro m hm
    obtain ⟨j2, hj2, _, _⟩ := (mem_matchesFrom _ m.1 m.2 0 _).mp hm
    rw [List.get?_map] at hj2
    cases hgi : haystack.get? j2 with
    | none =>
      rw [hgi] at hj2
      exact absurd hj2 (by simp)
    | some orig =>
      rw [hgi] at hj2
      simp only [Option.map_some', Option.some.injEq] at hj2
      simp only [Bool.not_eq_true, beq_eq_false_iff_ne, ne_eq, ← hj2]
      exact hnonorm orig (List.get?_mem hgi)
  have hhead : (matchesFrom (normalize needle).data 0
      (haystack.map normalize)).head? = some (normalize y, 0 + j) := by
    refine head?_matchesFrom (normalize needle).data (haystack.map normalize)
      0 j (normalize y) hmapj hincy ?_
    intro i x hi hx
    rw [List.get?_map] at hx
    cases hgi : haystack.get? i with
    | none =>
      rw [hgi] at hx
      exact absurd hx (by simp)
    | some orig =>
      rw [hgi] at hx
      simp only [Option.map_some', Option.some.injEq] at hx
      rw [← hx]
      exact hearlier i orig hi hgi
  rw [show (0 : Nat) + j = j from by omega] at hhead
  simp only [trashSearch, List.isEmpty_eq_false.mpr hne, Bool.false_eq_true,
    if_false, hfind1, hfind2, hhead, Option.some_bind, hj]

/-- Claim C6: the fuzzy matcher normalizes both sides by lowercasing and
stripping non-alphanumeric characters, keeps entries whose normalized form
contains the normalized candidate as a substring, and returns the original
string of the match chosen by the tie-break order: (1) an entry whose
original name equals the candidate exactly, else (2) the first entry whose
normalized name equals the normalized candidate, else (3) the first match
in original list order; it returns nothing when no normalized substring
match exists.  In particular an exact member is always returned as itself,
trashSearch "My-Repo" ["my-repo", "other"] = "my-repo",
trashSearch "xyz" ["abc", "def"] is undefined, a later normalized-equal
entry beats an earlier mere substring match
(trashSearch "ab" ["xaby", "ab!"] = "ab!"), and with neither exact nor
normalized-equal entries the first substring match wins
(trashSearch "ab" ["xaby", "zabw"] = "xaby"). -/
theorem claim_C6_trashSearch :
    (∀ needle haystack, needle ∈ haystack → trashSearch needle haystack = some needle)
    ∧ (∀ needle haystack,
        (∀ x ∈ haystack,
          listIncludes (normalize x).data (normalize needle).data = false) →
        trashSearch needle haystack = none)
    ∧ (∀ needle haystack r, trashSearch needle haystack = some r →
        r ∈ haystack ∧ listIncludes (normalize r).data (normalize needle).data = true)
    ∧ (∀ name : String, trashSearch name [name] = some name)
    ∧ trashSearch "My-Repo" ["my-repo", "other"] = some "my-repo"
    ∧ trashSearch "xyz" ["abc", "def"] = none
    ∧ (∀ (needle y : String) (haystack : List String) (j : Nat),
        needle ∉ haystack →
        haystack.get? j = some y →
        normalize y = normalize needle →
        (∀ i x, i < j → haystack.get? i = some x →
          normalize x ≠ normalize needle) →
        trashSearch needle haystack = some y)
    ∧ (∀ (needle y : String) (haystack : List String) (j : Nat),
        needle ∉ haystack →
        (∀ x ∈ haystack, normalize x ≠ normalize needle) →
        haystack.get? j = some y →
        listIncludes (normalize y).data (normalize needle).data = true →
        (∀ i x, i < j → haystack.get? i = some x →
          listIncludes (normalize x).data (normalize needle).data = false) →
        trashSearch needle haystack = some y)
    ∧ trashSearch "ab" ["xaby", "ab!"] = some "ab!"
    ∧ trashSearch "ab" ["xaby", "zabw"] = some "xaby" :=
  ⟨fun _ _ h => trashSearch_exact h,
   fun _ _ h => trashSearch_no_match h,
   fun _ _ _ h => trashSearch_sound h,
   fun name => trashSearch_exact (List.mem_singleton.mpr rfl),
   by decide,
   by decide,
   fun _ _ _ _ hmem hj hy hearlier =>
     trashSearch_normalized_first hmem hj hy hearlier,
   fun _ _ _ _ hmem hnonorm hj hincy hearlier =>
     trashSearch_first_match hmem hnonorm hj hincy hearlier,
   by decide,
   by decide⟩

/-- Witness for claim C6: the hypotheses of the general conjuncts hold at
concrete inputs — an exact member, a no-match haystack, a sound result,
a normalized-equal entry at index 1 beating the substring match at index
0, and a first-in-order substring match with no exact or normalized-equal
entry anywhere. -/
theorem claim_C6_trashSearch_witness :
    trashSearch "pkg" ["xpkgy", "pkg"] = some "pkg"
    ∧ trashSearch "qq" ["abc"] = none
    ∧ ("my-repo" ∈ (["my-repo", "other"] : List String)
        ∧ listIncludes (normalize "my-repo").data (normalize "My-Repo").data = true)
    ∧ trashSearch "ab" ["xaby", "ab!"] = some "ab!"
    ∧ trashSearch "ab" ["xaby", "zabw"] = some "xaby" := by
  refine ⟨?_, ?_, ?_, ?_, ?_⟩
  · exact claim_C6_trashSearch.1 "pkg" ["xpkgy", "pkg"] (by decide)
  · exact claim_C6_trashSearch.2.1 "qq" ["abc"] (by decide)
  · exact claim_C6_trashSearch.2.2.1 "My-Repo" ["my-repo", "other"] "my-repo" (by decide)
  · refine claim_C6_trashSearch.2.2.2.2.2.2.1 "ab" "ab!" ["xaby", "ab!"] 1
      (by decide) rfl (by decide) ?_
    intro i x hi hx
    have hi0 : i = 0 := by omega
    subst hi0
    simp only [List.get?_cons_zero, Option.some.injEq] at hx
    subst hx
    decide
  · refine claim_C6_trashSearch.2.2.2.2.2.2.2.1 "ab" "xaby" ["xaby", "zabw"] 0
      (by decide) (by decide) rfl (by decide) ?_
    intro i x hi _
    exact absurd hi (by omega)

/-! ## OAuth device-flow token polling (`fetchToken`, unnamed/part_000)

The poller is embedded as a function of the finite script of server
responses to successive token requests: one response is consumed per
request.  The result carries the outcome, the list of waits performed (in
seconds, in order), and the number of token requests issued; `none` means
the response script was exhausted while the poller still wanted to retry. -/

/-- One response of the token endpoint, as discriminated by `fetchToken`. -/
inductive TokenResponse where
  | authorizationPending
  | slowDown (interval : Nat)
  | otherError (description : String)
  | success (accessToken tokenType scope : String)
deriving DecidableEq, Repr

/-- The validated success payload: token, token type, and the scope string
split on ":" keeping only non-empty pieces. -/
structure TokenSuccess where
  accessToken : String
  tokenType : String
  scope : List String
deriving DecidableEq, Repr

/-- JavaScript `str.split(":")` on the character list, accumulating the
current piece in reverse. -/
def splitColonAux : List Char → List Char → List String
  | [], acc => [⟨acc.reverse⟩]
  | c :: rest, acc =>
    if c = ':' then ⟨acc.reverse⟩ :: splitColonAux rest []
    else splitColonAux rest (c :: acc)

/-- The scope post-processing `scope.split(":").filter(s => !!s)`. -/
def splitScope (scope : String) : List String :=
  (splitColonAux scope.data []).filter (fun s => !s.isEmpty)

/-- `fetchToken` of unnamed/part_000: poll until the server answers with
something other than `authorization_pending`/`slow_down`; pending waits the
current interval and retries it unchanged, `slow_down` waits and adopts the
server interval, any other error throws its description, and a success
response is validated (all three fields truthy) and post-processed. -/
def fetchToken : List TokenResponse → Nat → Option (Except String TokenSuccess × List Nat × Nat)
  | [], _ => none
  | .authorizationPending :: rest, interval =>
    (fetchToken rest interval).map (fun r => (r.1, interval :: r.2.1, r.2.2 + 1))
  | .slowDown newInterval :: rest, _ =>
    (fetchToken rest newInterval).map (fun r => (r.1, newInterval :: r.2.1, r.2.2 + 1))
  | .otherError description :: _, _ => some (.error description, [], 1)
  | .success accessToken tokenType scope :: _, _ =>
    if accessToken.isEmpty || tokenType.isEmpty || scope.isEmpty then
      some (.error "Failed to get valid access token", [], 1)
    else
      some (.ok ⟨accessToken, tokenType, splitScope scope⟩, [], 1)

theorem splitScope_entries_ne_empty (scope : String) :
    ∀ x ∈ splitScope scope, x ≠ "" := by
  intro x hx
  have h := List.of_mem_filter hx
  simp only [Bool.not_eq_true'] at h
  intro hx0
  rw [hx0] at h
  exact absurd h (by decide)

/-- Claim C8: the token poller waits the current interval and retries it
unchanged on authorization_pending, adopts the server interval on
slow_down, fails immediately with the server description on any other
error, and on success returns token, token type and the colon-split scope
list whose entries are all non-empty.  Against a script answering
authorization_pending twice and then success, it returns the token after
exactly two interval-length waits and exactly three requests, regardless
of any further scripted responses. -/
theorem claim_C8_fetchToken :
    (∀ (rest : List TokenResponse) (interval : Nat),
      fetchToken (.authorizationPending :: rest) interval =
        (fetchToken rest interval).map (fun r => (r.1, interval :: r.2.1, r.2.2 + 1)))
    ∧ (∀ (rest : List TokenResponse) (interval newInterval : Nat),
      fetchToken (.slowDown newInterval :: rest) interval =
        (fetchToken rest newInterval).map (fun r => (r.1, newInterval :: r.2.1, r.2.2 + 1)))
    ∧ (∀ (description : String) (rest : List TokenResponse) (interval : Nat),
      fetchToken (.otherError description :: rest) interval =
        some (.error description, [], 1))
    ∧ (∀ (a t s : String) (rest : List TokenResponse) (interval : Nat),
      a ≠ "" → t ≠ "" → s ≠ "" →
        fetchToken (.success a t s :: rest) interval =
          some (.ok ⟨a, t, splitScope s⟩, [], 1)
        ∧ ∀ x ∈ splitScope s, x ≠ "")
    ∧ (∀ (extra : List TokenResponse) (interval : Nat),
      fetchToken
          ([.authorizationPending, .authorizationPending,
            .success "tok" "bearer" "repo"] ++ extra) interval =
        some (.ok ⟨"tok", "bearer", ["repo"]⟩, [interval, interval], 3)) := by
  refine ⟨fun rest interval => rfl, fun rest interval newInterval => rfl,
    fun d rest interval => rfl, ?_, fun extra interval => rfl⟩
  intro a t s rest interval ha ht hs
  refine ⟨?_, splitScope_entries_ne_empty s⟩
  have ha2 : a.isEmpty = false := by
    cases h : a.isEmpty with
    | false => rfl
    | true => exact absurd ((String.isEmpty_iff a).mp h) ha
  have ht2 : t.isEmpty = false := by
    cases h : t.isEmpty with
    | false => rfl
    | true => exact absurd ((String.isEmpty_iff t).mp h) ht
  have hs2 : s.isEmpty = false := by
    cases h : s.isEmpty with
    | false => rfl
    | true => exact absurd ((String.isEmpty_iff s).mp h) hs
  simp [fetchToken, ha2, ht2, hs2]

/-- Witness for claim C8: the success conjunct at a concrete response. -/
theorem claim_C8_fetchToken_witness :
    fetchToken [.success "tok" "bearer" "repo:user"] 5 =
      some (.ok ⟨"tok", "bearer", ["repo", "user"]⟩, [], 1)
    ∧ ∀ x ∈ splitScope "repo:user", x ≠ "" := by
  have h := claim_C8_fetchToken.2.2.2.1 "tok" "bearer" "repo:user" [] 5
    (by decide) (by decide) (by decide)
  exact ⟨by rw [h.1]; rfl, h.2⟩

end CreateTypescriptPackage

namespace CreateTypescriptPackage

/-! ## GitHub repository listing validation (`getUserRepos`,
create-typescript-thing/src/createGithubRepo.ts)

Only the response validation is modelled: the HTTP layer and the per-user
promise cache are external.  The JSON response is `none` for a non-array
body, otherwise the list of raw entries with every field optional. -/

/-- Repository visibility as returned by the GitHub API ("public" or
"private"; the names avoid the Lean keywords). -/
inductive Visibility where
  | publicRepo
  | privateRepo
deriving DecidableEq, Repr

/-- The owner object of a raw repository entry. -/
structure RawOwner where
  login : Option String
deriving DecidableEq, Repr

/-- One entry of the raw JSON array, all fields optional. -/
structure RawRepo where
  name : Option String
  full_name : Option String
  description : Option String
  owner : Option RawOwner
  visibility : Option Visibility
  archived : Option Bool
deriving DecidableEq, Repr

/-- A validated repository record. -/
structure RepoInfo where
  name : String
  fullName : String
  description : Option String
  owner : String
  visibility : Visibility
  archived : Bool
deriving DecidableEq, Repr

/-- The body of the validating `flatMap`: an entry survives exactly when
`name`, `full_name` and `owner.login` are truthy strings, `visibility` is
present and `archived` is neither null nor undefined; a falsy description
is dropped. -/
def checkEntry (r : RawRepo) : Option RepoInfo :=
  match r.name, r.full_name, r.owner, r.visibility, r.archived with
  | some name, some fullName, some owner, some visibility, some archived =>
    match owner.login with
    | some login =>
      if name.isEmpty || fullName.isEmpty || login.isEmpty then none
      else
        some { name := name, fullName := fullName,
               description := if truthyO r.description then r.description else none,
               owner := login, visibility := visibility, archived := archived }
    | none => none
  | _, _, _, _, _ => none

/-- `getUserRepos` response handling: reject a non-array body, validate
every entry, and fail when any entry was dropped by validation. -/
def getUserRepos (response : Option (List RawRepo)) : Except String (List RepoInfo) :=
  match response with
  | none => .error "Failed to get user repos"
  | some entries =>
    let checkedRepos := entries.filterMap checkEntry
    if checkedRepos.length ≠ entries.length then .error "Got invalid repos"
    else .ok checkedRepos

/-- The spec-level notion of a well-formed entry: required fields present
(with JavaScript truthiness for the strings). -/
def requiredFields (r : RawRepo) : Prop :=
  truthyO r.name = true ∧ truthyO r.full_name = true ∧
  (∃ o, r.owner = some o ∧ truthyO o.login = true) ∧
  r.visibility.isSome = true ∧ r.archived.isSome = true

instance (r : RawRepo) : Decidable (requiredFields r) := by
  unfold requiredFields
  infer_instance

theorem checkEntry_isSome_iff (r : RawRepo) :
    (checkEntry r).isSome = true ↔ requiredFields r := by
  obtain ⟨n, f, d, o, v, a⟩ := r
  cases n <;> cases f <;> cases o <;> cases v <;> cases a <;>
    simp [checkEntry, requiredFields, truthyO]
  case some.some.some.some.some n f o v a =>
    cases ho : o.login with
    | none => simp [ho]
    | some login =>
      by_cases hn : n.isEmpty <;> by_cases hf : f.isEmpty <;>
        by_cases hl : login.isEmpty <;>
        simp [ho, hn, hf, hl]

theorem length_filterMap_eq_of_all {α β : Type} (g : α → Option β) (l : List α)
    (h : ∀ x ∈ l, (g x).isSome = true) : (l.filterMap g).length = l.length := by
  induction l with
  | nil => rfl
  | cons x xs ih =>
    have hx := h x (List.mem_cons_self _ _)
    obtain ⟨y, hy⟩ := Option.isSome_iff_exists.mp hx
    rw [List.filterMap_cons, hy]
    simp only [List.length_cons]
    rw [ih (fun z hz => h z (List.mem_cons_of_mem _ hz))]

theorem length_filterMap_lt_of_none {α β : Type} (g : α → Option β) (l : List α)
    {x : α} (hx : x ∈ l) (hnone : g x = none) :
    (l.filterMap g).length < l.length := by
  induction l with
  | nil => exact absurd hx (List.not_mem_nil _)
  | cons y ys ih =>
    rw [List.filterMap_cons]
    rcases List.mem_cons.mp hx with heq | hmem
    · subst heq
      rw [hnone]
      simp only [List.length_cons]
      exact Nat.lt_succ_of_le (List.length_filterMap_le _ _)
    · cases hgy : g y with
      | none =>
        simp only [List.length_cons]
        exact Nat.lt_succ_of_lt (ih hmem)
      | some b =>
        simp only [List.length_cons, Nat.succ_lt_succ_iff]
        exact ih hmem

end CreateTypescriptPackage

namespace CreateTypescriptPackage

/-- Claim C9: the user-repository listing is all-or-nothing.  A body that
is not an array fails; a body whose entries all carry the required fields
(truthy name, full name, owner login; present visibility; non-null
archived) yields the full validated list, one validated record per entry;
a body with any single malformed entry fails with an error instead of
returning a partial list. -/
theorem claim_C9_getUserRepos :
    getUserRepos none = .error "Failed to get user repos"
    ∧ (∀ entries : List RawRepo, (∀ r ∈ entries, requiredFields r) →
        getUserRepos (some entries) = .ok (entries.filterMap checkEntry)
        ∧ (entries.filterMap checkEntry).length = entries.length)
    ∧ (∀ (entries : List RawRepo) (r : RawRepo), r ∈ entries → ¬ requiredFields r →
        getUserRepos (some entries) = .error "Got invalid repos") := by
  refine ⟨rfl, ?_, ?_⟩
  · intro entries h
    have hlen : (entries.filterMap checkEntry).length = entries.length :=
      length_filterMap_eq_of_all checkEntry entries
        (fun r hr => (checkEntry_isSome_iff r).mpr (h r hr))
    refine ⟨?_, hlen⟩
    simp [getUserRepos, hlen]
  · intro entries r hr hbad
    have hnone : checkEntry r = none := by
      cases hc : checkEntry r with
      | none => rfl
      | some v =>
        exact absurd ((checkEntry_isSome_iff r).mp (by simp [hc])) hbad
    have hlt : (entries.filterMap checkEntry).length < entries.length :=
      length_filterMap_lt_of_none checkEntry entries hr hnone
    have hne : (entries.filterMap checkEntry).length ≠ entries.length :=
      Nat.ne_of_lt hlt
    simp [getUserRepos, hne]

/-- A well-formed raw entry used by the C9 witness. -/
def goodRawRepo : RawRepo :=
  { name := some "a"
    full_name := some "o/a"
    description := none
    owner := some ⟨some "o"⟩
    visibility := some .publicRepo
    archived := some false }

/-- A malformed raw entry (missing name) used by the C9 witness. -/
def badRawRepo : RawRepo :=
  { name := none
    full_name := some "o/b"
    description := none
    owner := some ⟨some "o"⟩
    visibility := some .publicRepo
    archived := some false }

/-- Witness for claim C9: a well-formed batch of one entry validates, and
the same batch with one malformed entry added fails atomically. -/
theorem claim_C9_getUserRepos_witness :
    (∃ out, getUserRepos (some [goodRawRepo]) = .ok out ∧ out.length = 1)
    ∧ getUserRepos (some [goodRawRepo, badRawRepo]) = .error "Got invalid repos" := by
  constructor
  · have h := claim_C9_getUserRepos.2.1 [goodRawRepo] (by decide)
    exact ⟨[goodRawRepo].filterMap checkEntry, h.1, h.2⟩
  · exact claim_C9_getUserRepos.2.2 [goodRawRepo, badRawRepo] badRawRepo
      (by decide) (by decide)

end CreateTypescriptPackage

namespace CreateTypescriptPackage

/-! ## The settings record (src/index.ts `PackageSettings`)

Filesystem paths are abstract absolute paths: the list of directory
components from the root, so that the root is `[]` and `dirname` drops the
last component.  `path.resolve`/`path.normalize` of Node are external
library collaborators and appear as an environment function producing such
an absolute path. -/

/-- An absolute normalized filesystem path: components from the root. -/
abbrev AbsPath := List String

/-- A guessed external git account. -/
inductive GitAccountType where
  | github
  | gitlab
deriving DecidableEq, Repr

/-- `GitAccountInfo` of src/index.ts. -/
structure GitAccountInfo where
  type : GitAccountType
  username : String
  confidence : Rat
deriving DecidableEq, Repr

/-- The per-path memoized facts (`pathInfos` values). -/
structure PathInfo where
  inGitTree : Bool
  isGitRoot : Bool
  pathExists : Bool
  firstExistingPathUp : AbsPath
  absolutePath : AbsPath
  gitOrigin : Option String
deriving DecidableEq, Repr

/-- The package type enumeration. -/
inductive PkgType where
  | library
  | application
deriving DecidableEq, Repr

/-- Git transport protocol. -/
inductive GitProtocol where
  | https
  | ssh
deriving DecidableEq, Repr

/-- Package manager choice. -/
inductive PackageManager where
  | pnpm
  | yarn
  | npm
deriving DecidableEq, Repr

/-- `PackageSettings` of src/index.ts.  `pathInfos` is an association list
keyed by the raw path string, queried with `List.lookup`; the JavaScript
object-spread insertion becomes a cons, which agrees on every lookup. -/
structure PackageSettings where
  path : Option String := none
  name : Option String := none
  description : Option String := none
  type : Option PkgType := none
  monorepo : Option Bool := none
  repo : Option String := none
  branch : Option String := none
  authorName : Option String := none
  authorEmail : Option String := none
  invokeDirectory : String := ""
  pathInfos : List (String × PathInfo) := []
  gitUsername : Option String := none
  gitEmail : Option String := none
  osUsername : Option String := none
  gitAccount : Option GitAccountInfo := none
  explicitPath : Option Bool := none
  githubUsername : Option String := none
  githubToken : Option String := none
  gitProtocol : Option GitProtocol := none
  packageManager : Option PackageManager := none
deriving DecidableEq, Repr

/-! ## Path/git context resolver (`addPathInfo`, src/index.ts) -/

/-- The directory levels pushed by the do-while loop: starting from the
target, repeatedly take `dirname` and push it, stopping once the root was
pushed.  (`dirname` of the root is the root itself, as for "/".) -/
def pathsUpFrom : AbsPath → List AbsPath
  | [] => [[]]
  | a :: l =>
    let d := (a :: l).dropLast
    d :: (if d.isEmpty then [] else pathsUpFrom d)
termination_by p => p.length
decreasing_by
  simp only [List.length_dropLast, List.length_cons]
  omega

/-- All candidate directories, the target itself included, closest first. -/
def pathsUp (target : AbsPath) : List AbsPath :=
  target :: pathsUpFrom target

/-- `pathsUp.find(path => existsSync(path))`, also counting the number of
`existsSync` probes performed. -/
def findFirstExisting (existsSync : AbsPath → Bool) : List AbsPath → Option AbsPath × Nat
  | [] => (none, 0)
  | p :: ps =>
    if existsSync p then (some p, 1)
    else
      let r := findFirstExisting existsSync ps
      (r.1, r.2 + 1)

/-- The external world consulted by `addPathInfo`: Node's path resolution,
`existsSync`, and the two shell git probes (`git rev-parse
--is-inside-work-tree`, `git remote get-url origin`) keyed by the directory
they run in.  `gitOriginOf` is the trimmed stdout, `none` on failure. -/
structure PathEnv where
  resolve : String → String → AbsPath
  existsSync : AbsPath → Bool
  inGitTree : AbsPath → Bool
  gitOriginOf : AbsPath → Option String

/-- `addPathInfo` of src/index.ts, instrumented with the count of external
probes (filesystem existence checks and git shell calls) it performs.
Returns the settings unchanged (and performs no probe) when `path` is falsy
or already cached; throws when no candidate directory exists. -/
def addPathInfoC (env : PathEnv) (s : PackageSettings) :
    Except String PackageSettings × Nat :=
  match s.path with
  | none => (.ok s, 0)
  | some p =>
    if p.isEmpty then (.ok s, 0)
    else
      match s.pathInfos.lookup p with
      | some _ => (.ok s, 0)
      | none =>
        let targetPath := env.resolve s.invokeDirectory p
        let found := findFirstExisting env.existsSync (pathsUp targetPath)
        match found.1 with
        | none => (.error "Could not find any existing path from the target path", found.2)
        | some firstExistingPathUp =>
          let pathExists := firstExistingPathUp == targetPath
          let inGitTree := env.inGitTree firstExistingPathUp
          let gitOrigin :=
            if inGitTree then env.gitOriginOf firstExistingPathUp else none
          let isGitRoot :=
            pathExists && env.existsSync (firstExistingPathUp ++ [".git"])
          (.ok { s with
                  repo := coalesce s.repo gitOrigin
                  monorepo := coalesce s.monorepo (some (inGitTree && !isGitRoot))
                  pathInfos :=
                    (p, { pathExists := pathExists
                          firstExistingPathUp := firstExistingPathUp
                          isGitRoot := isGitRoot
                          inGitTree := inGitTree
                          absolutePath := targetPath
                          gitOrigin := gitOrigin }) :: s.pathInfos },
            found.2 + 1 + (if inGitTree then 1 else 0) + (if pathExists then 1 else 0))

/-- `addPathInfo` without the probe instrumentation. -/
def addPathInfo (env : PathEnv) (s : PackageSettings) : Except String PackageSettings :=
  (addPathInfoC env s).1

end CreateTypescriptPackage

namespace CreateTypescriptPackage

theorem addPathInfoC_cached (env : PathEnv) (s : PackageSettings) (p : String)
    (hp : s.path = some p) (hc : (s.pathInfos.lookup p).isSome = true) :
    addPathInfoC env s = (.ok s, 0) := by
  unfold addPathInfoC
  rw [hp]
  by_cases hpe : p.isEmpty
  · simp [hpe]
  · obtain ⟨info, hinfo⟩ := Option.isSome_iff_exists.mp hc
    simp [hpe, hinfo]

theorem addPathInfoC_uncached (env : PathEnv) (s : PackageSettings) (p : String)
    (anc : AbsPath)
    (hp : s.path = some p) (hpe : p.isEmpty = false)
    (hc : s.pathInfos.lookup p = none)
    (hf : (findFirstExisting env.existsSync
        (pathsUp (env.resolve s.invokeDirectory p))).1 = some anc) :
    addPathInfoC env s =
      (.ok { s with
              repo := coalesce s.repo
                (if env.inGitTree anc then env.gitOriginOf anc else none)
              monorepo := coalesce s.monorepo
                (some (env.inGitTree anc &&
                  !((anc == env.resolve s.invokeDirectory p) &&
                    env.existsSync (anc ++ [".git"]))))
              pathInfos :=
                (p, { pathExists := anc == env.resolve s.invokeDirectory p
                      firstExistingPathUp := anc
                      isGitRoot := (anc == env.resolve s.invokeDirectory p) &&
                        env.existsSync (anc ++ [".git"])
                      inGitTree := env.inGitTree anc
                      absolutePath := env.resolve s.invokeDirectory p
                      gitOrigin :=
                        if env.inGitTree anc then env.gitOriginOf anc else none })
                  :: s.pathInfos },
        (findFirstExisting env.existsSync
          (pathsUp (env.resolve s.invokeDirectory p))).2 + 1
          + (if env.inGitTree anc then 1 else 0)
          + (if anc == env.resolve s.invokeDirectory p then 1 else 0)) := by
  unfold addPathInfoC
  rw [hp]
  simp only [hpe, Bool.false_eq_true, if_false, hc, hf]

theorem addPathInfoC_shape (env : PathEnv) (s s1 : PackageSettings) (n : Nat)
    (h : addPathInfoC env s = (.ok s1, n)) :
    s1.path = s.path ∧
      (∀ p, s.path = some p → p.isEmpty = false →
        (s1.pathInfos.lookup p).isSome = true) := by
  unfold addPathInfoC at h
  cases hp : s.path with
  | none =>
    rw [hp] at h
    simp only [Prod.mk.injEq, Except.ok.injEq] at h
    constructor
    · rw [← h.1, hp]
    · intro q hq
      exact absurd hq (by simp)
  | some p =>
    rw [hp] at h
    by_cases hpe : p.isEmpty
    · simp only [hpe, if_true, Prod.mk.injEq, Except.ok.injEq] at h
      constructor
      · rw [← h.1, hp]
      · intro q hq hqe
        injection hq with hq
        subst hq
        rw [hpe] at hqe
        exact absurd hqe (by simp)
    · simp only [hpe, Bool.false_eq_true, if_false] at h
      cases hc : s.pathInfos.lookup p with
      | some info =>
        rw [hc] at h
        simp only [Prod.mk.injEq, Except.ok.injEq] at h
        constructor
        · rw [← h.1, hp]
        · intro q hq hqe
          injection hq with hq
          subst hq
          rw [← h.1, hc]
          rfl
      | none =>
        rw [hc] at h
        cases hf : (findFirstExisting env.existsSync
            (pathsUp (env.resolve s.invokeDirectory p))).1 with
        | none =>
          rw [hf] at h
          exact absurd h (by simp)
        | some fe =>
          rw [hf] at h
          simp only [Prod.mk.injEq, Except.ok.injEq] at h
          constructor
          · rw [← h.1]
          · intro q hq hqe
            injection hq with hq
            subst hq
            rw [← h.1]
            simp [List.lookup]

/-- Claim C2: when `path` is set and already cached, `addPathInfo` returns
the settings unchanged with zero external probes; consequently, after any
successful call, an immediately repeated call returns its input unchanged
and performs zero filesystem/git probes, so both calls observe the same
`pathInfos[p]`. -/
theorem claim_C2_addPathInfo_idempotent :
    ∀ (env : PathEnv) (s : PackageSettings) (p : String),
      s.path = some p →
      ((s.pathInfos.lookup p).isSome = true → addPathInfoC env s = (.ok s, 0))
      ∧ (∀ (s1 : PackageSettings) (n : Nat), addPathInfoC env s = (.ok s1, n) →
          addPathInfoC env s1 = (.ok s1, 0)) := by
  intro env s p hp
  refine ⟨fun hc => addPathInfoC_cached env s p hp hc, ?_⟩
  intro s1 n h
  have hshape := addPathInfoC_shape env s s1 n h
  have hpath1 : s1.path = some p := by rw [hshape.1, hp]
  by_cases hpe : p.isEmpty
  · unfold addPathInfoC
    rw [hpath1]
    simp [hpe]
  · exact addPathInfoC_cached env s1 p hpath1
      (hshape.2 p hp (by simpa using hpe))

end CreateTypescriptPackage

namespace CreateTypescriptPackage

/-- A tiny concrete external world for the path-resolver witnesses: every
directory exists, nothing is inside a git tree, and resolution turns the
given path string into a single-component absolute path. -/
def pathEnvW : PathEnv :=
  { resolve := fun _ p => [p]
    existsSync := fun _ => true
    inGitTree := fun _ => false
    gitOriginOf := fun _ => none }

/-- Witness settings: a fresh record asking about path "proj". -/
def settingsW : PackageSettings := { path := some "proj" }

/-- The record produced by the first `addPathInfo` call under `pathEnvW`. -/
def settingsW1 : PackageSettings :=
  { path := some "proj"
    monorepo := some false
    pathInfos := [("proj",
      { pathExists := true
        firstExistingPathUp := ["proj"]
        isGitRoot := true
        inGitTree := false
        absolutePath := ["proj"]
        gitOrigin := none })] }

/-- Witness for claim C2: a concrete first call populates the cache with
three probes, and the repeated call applied to its result returns it
unchanged with zero probes. -/
theorem claim_C2_addPathInfo_idempotent_witness :
    addPathInfoC pathEnvW settingsW = (.ok settingsW1, 3)
    ∧ addPathInfoC pathEnvW settingsW1 = (.ok settingsW1, 0) := by
  have hne : "proj".isEmpty = false := by decide
  have h1 : addPathInfoC pathEnvW settingsW = (.ok settingsW1, 3) := by
    simp [addPathInfoC, pathEnvW, settingsW, settingsW1, pathsUp, pathsUpFrom,
      findFirstExisting, coalesce, List.lookup, hne]
  exact ⟨h1,
    (claim_C2_addPathInfo_idempotent pathEnvW settingsW "proj" rfl).2 settingsW1 3 h1⟩

end CreateTypescriptPackage

namespace CreateTypescriptPackage

theorem findFirstExisting_mem (ex : AbsPath → Bool) :
    ∀ (l : List AbsPath) (a : AbsPath), (findFirstExisting ex l).1 = some a →
      a ∈ l ∧ ex a = true := by
  intro l
  induction l with
  | nil => intro a h; exact absurd h (by simp [findFirstExisting])
  | cons p ps ih =>
    intro a h
    by_cases hex : ex p
    · simp only [findFirstExisting, hex, if_true, Option.some.injEq] at h
      subst h
      exact ⟨List.mem_cons_self _ _, hex⟩
    · simp only [findFirstExisting, hex, Bool.false_eq_true, if_false] at h
      obtain ⟨hmem, hexa⟩ := ih a h
      exact ⟨List.mem_cons_of_mem _ hmem, hexa⟩

theorem mem_pathsUpFrom_length :
    ∀ (n : Nat) (p : AbsPath), p.length ≤ n →
      ∀ q ∈ pathsUpFrom p, p = [] ∨ q.length < p.length := by
  intro n
  induction n with
  | zero =>
    intro p hp q _
    left
    exact List.eq_nil_of_length_eq_zero (Nat.le_zero.mp hp)
  | succ n ih =>
    intro p hp q hq
    cases p with
    | nil => left; rfl
    | cons a l =>
      right
      simp only [pathsUpFrom] at hq
      rcases List.mem_cons.mp hq with h | h
      · subst h
        simp [List.length_dropLast]
      · by_cases hd : ((a :: l).dropLast).isEmpty
        · rw [if_pos hd] at h
          exact absurd h (List.not_mem_nil q)
        · rw [if_neg hd] at h
          have hdlen : ((a :: l).dropLast).length ≤ n := by
            simp only [List.length_dropLast, List.length_cons] at *
            omega
          rcases ih ((a :: l).dropLast) hdlen q h with hnil | hlt
          · rw [hnil] at hd
            exact absurd rfl hd
          · calc q.length < ((a :: l).dropLast).length := hlt
              _ < (a :: l).length := by
                simp [List.length_dropLast]

theorem findFirstExisting_pathsUp (ex : AbsPath → Bool) (t anc : AbsPath)
    (h : (findFirstExisting ex (pathsUp t)).1 = some anc) :
    (anc == t) = ex t := by
  by_cases hex : ex t
  · have ht : (findFirstExisting ex (pathsUp t)).1 = some t := by
      simp [pathsUp, findFirstExisting, hex]
    rw [ht] at h
    injection h with h
    subst h
    rw [hex]
    exact beq_self_eq_true _
  · have h1 : (findFirstExisting ex (pathsUp t)).1 =
        (findFirstExisting ex (pathsUpFrom t)).1 := by
      simp [pathsUp, findFirstExisting, hex]
    rw [h1] at h
    obtain ⟨hmem, hexa⟩ := findFirstExisting_mem ex _ anc h
    rcases mem_pathsUpFrom_length t.length t (Nat.le_refl _) anc hmem with hnil | hlt
    · subst hnil
      simp only [pathsUpFrom, List.mem_singleton] at hmem
      subst hmem
      exact absurd hexa (by simpa using hex)
    · have hne : anc ≠ t := by
        intro he
        rw [he] at hlt
        exact Nat.lt_irrefl _ hlt
      rw [beq_eq_false_iff_ne.mpr hne]
      simpa using (Bool.not_eq_true (ex t)).mp hex

end CreateTypescriptPackage

namespace CreateTypescriptPackage

/-- Claim C3: on a fresh (uncached, truthy) path whose upward walk finds a
first existing ancestor `anc`, `addPathInfo` succeeds and caches an entry
for the raw path string with `pathExists` true exactly when the ancestor is
the resolved target itself (equivalently, when the target exists on disk),
`isGitRoot` equal to `pathExists` AND a `.git` entry directly under the
ancestor, and on this first resolution `repo` defaults to the discovered
git origin only when previously unset and `monorepo` defaults to (inside a
git work tree AND not a git root) only when previously unset. -/
theorem claim_C3_addPathInfo_resolves :
    ∀ (env : PathEnv) (s : PackageSettings) (p : String) (anc : AbsPath),
      s.path = some p → p.isEmpty = false → s.pathInfos.lookup p = none →
      (findFirstExisting env.existsSync
        (pathsUp (env.resolve s.invokeDirectory p))).1 = some anc →
      ∀ (s1 : PackageSettings) (n : Nat), addPathInfoC env s = (.ok s1, n) →
        ∀ info : PathInfo, s1.pathInfos.lookup p = some info →
          info.absolutePath = env.resolve s.invokeDirectory p
          ∧ info.firstExistingPathUp = anc
          ∧ (info.pathExists = true ↔ anc = env.resolve s.invokeDirectory p)
          ∧ info.pathExists = env.existsSync (env.resolve s.invokeDirectory p)
          ∧ info.isGitRoot = (info.pathExists && env.existsSync (anc ++ [".git"]))
          ∧ info.inGitTree = env.inGitTree anc
          ∧ info.gitOrigin = (if env.inGitTree anc then env.gitOriginOf anc else none)
          ∧ (s.repo = none →
              s1.repo = (if env.inGitTree anc then env.gitOriginOf anc else none))
          ∧ (∀ r, s.repo = some r → s1.repo = some r)
          ∧ (s.monorepo = none →
              s1.monorepo = some (env.inGitTree anc && !info.isGitRoot))
          ∧ (∀ b, s.monorepo = some b → s1.monorepo = some b) := by
  intro env s p anc hp hpe hc hf s1 n h info hinfo
  have hq := addPathInfoC_uncached env s p anc hp hpe hc hf
  rw [hq] at h
  simp only [Prod.mk.injEq, Except.ok.injEq] at h
  have hs1 := h.1.symm
  subst hs1
  simp only [List.lookup, beq_self_eq_true, cond_true, Option.some.injEq] at hinfo
  subst hinfo
  have hbe : (anc == env.resolve s.invokeDirectory p) =
      env.existsSync (env.resolve s.invokeDirectory p) :=
    findFirstExisting_pathsUp env.existsSync _ anc hf
  refine ⟨rfl, rfl, ?_, ?_, rfl, rfl, rfl, ?_, ?_, ?_, ?_⟩
  · exact beq_iff_eq
  · exact hbe
  · intro hrepo
    simp [coalesce, hrepo]
  · intro r hrepo
    simp [coalesce, hrepo]
  · intro hmono
    simp [coalesce, hmono]
  · intro b hmono
    simp [coalesce, hmono]

/-- The cached entry produced for "proj" under `pathEnvW`. -/
def infoW : PathInfo :=
  { pathExists := true
    firstExistingPathUp := ["proj"]
    isGitRoot := true
    inGitTree := false
    absolutePath := ["proj"]
    gitOrigin := none }

/-- Witness for claim C3: all hypotheses hold and all conclusions are
checked at the concrete environment `pathEnvW` and settings `settingsW`. -/
theorem claim_C3_addPathInfo_resolves_witness :
    infoW.absolutePath = pathEnvW.resolve settingsW.invokeDirectory "proj"
    ∧ infoW.firstExistingPathUp = ["proj"]
    ∧ (infoW.pathExists = true ↔
        ["proj"] = pathEnvW.resolve settingsW.invokeDirectory "proj")
    ∧ infoW.pathExists =
        pathEnvW.existsSync (pathEnvW.resolve settingsW.invokeDirectory "proj")
    ∧ infoW.isGitRoot =
        (infoW.pathExists && pathEnvW.existsSync (["proj"] ++ [".git"]))
    ∧ infoW.inGitTree = pathEnvW.inGitTree ["proj"]
    ∧ infoW.gitOrigin =
        (if pathEnvW.inGitTree ["proj"] then pathEnvW.gitOriginOf ["proj"] else none)
    ∧ (settingsW.repo = none →
        settingsW1.repo =
          (if pathEnvW.inGitTree ["proj"] then pathEnvW.gitOriginOf ["proj"] else none))
    ∧ (∀ r, settingsW.repo = some r → settingsW1.repo = some r)
    ∧ (settingsW.monorepo = none →
        settingsW1.monorepo = some (pathEnvW.inGitTree ["proj"] && !infoW.isGitRoot))
    ∧ (∀ b, settingsW.monorepo = some b → settingsW1.monorepo = some b) := by
  refine claim_C3_addPathInfo_resolves pathEnvW settingsW "proj" ["proj"]
    rfl (by decide) rfl ?_ settingsW1 3 ?_ infoW ?_
  · simp [pathEnvW, settingsW, pathsUp, pathsUpFrom, findFirstExisting]
  · exact claim_C2_addPathInfo_idempotent_witness.1
  · simp [settingsW1, infoW, List.lookup]

end CreateTypescriptPackage

namespace CreateTypescriptPackage

/-! ## Git account guessing (`guessGitAccount`, src/index.ts)

The three HTTP search endpoints are modelled by the first login/username
of their response arrays (`none` when the response carries no usable
item). -/

/-- Responses of the user-search endpoints consulted by
`guessGitAccount`: the first login of the GitHub search by email, the
first login of the GitHub search by username, and the first username of
the GitLab search. -/
structure GuessEnv where
  emailLogin : Option String
  usernameLogin : Option String
  gitlabUsername : Option String

/-- `guessGitAccount` of src/index.ts: short-circuit over (1) an already
known github username, (2) GitHub search by email, (3) GitHub search by
username, (4) GitLab search by username; otherwise unchanged. -/
def guessGitAccount (env : GuessEnv) (s : PackageSettings) : PackageSettings :=
  if truthyO s.githubUsername then
    { s with
        gitAccount := some
          { type := .github
            username := s.githubUsername.getD ""
            confidence := if truthyO s.githubToken then 1 else 1/2 } }
  else if truthyO env.emailLogin then
    { s with
        gitAccount := some
          { type := .github, username := env.emailLogin.getD "", confidence := 1 }
        githubUsername := env.emailLogin
        githubToken :=
          if s.githubUsername == some (env.emailLogin.getD "")
          then s.githubToken else none }
  else if truthyO env.usernameLogin then
    { s with
        gitAccount := some
          { type := .github, username := env.usernameLogin.getD "", confidence := 1/2 }
        githubUsername := env.usernameLogin
        githubToken :=
          if s.githubUsername == some (env.usernameLogin.getD "")
          then s.githubToken else none }
  else if truthyO env.gitlabUsername then
    { s with
        gitAccount := some
          { type := .gitlab, username := env.gitlabUsername.getD "", confidence := 1/2 }
        githubUsername := none
        githubToken := none }
  else
    s

end CreateTypescriptPackage

namespace CreateTypescriptPackage

/-- Claim C4: `guessGitAccount` tries its sources in order and
short-circuits on the first success: known github username (confidence 1
with a truthy token, else 0.5), GitHub search by email (confidence 1),
GitHub search by username (confidence 0.5), GitLab search (gitlab account,
confidence 0.5), otherwise the settings are returned unchanged.  In
particular a username-search response whose first item is "octocat" yields
the github account octocat with confidence 0.5. -/
theorem claim_C4_guessGitAccount :
    ∀ (env : GuessEnv) (s : PackageSettings),
      (truthyO s.githubUsername = true →
        (guessGitAccount env s).gitAccount = some
          { type := .github, username := s.githubUsername.getD ""
            confidence := if truthyO s.githubToken then 1 else 1/2 })
      ∧ (truthyO s.githubUsername = false → truthyO env.emailLogin = true →
          (guessGitAccount env s).gitAccount = some
            { type := .github, username := env.emailLogin.getD "", confidence := 1 })
      ∧ (truthyO s.githubUsername = false → truthyO env.emailLogin = false →
          truthyO env.usernameLogin = true →
          (guessGitAccount env s).gitAccount = some
            { type := .github, username := env.usernameLogin.getD ""
              confidence := 1/2 })
      ∧ (truthyO s.githubUsername = false → truthyO env.emailLogin = false →
          truthyO env.usernameLogin = false → truthyO env.gitlabUsername = true →
          (guessGitAccount env s).gitAccount = some
            { type := .gitlab, username := env.gitlabUsername.getD ""
              confidence := 1/2 })
      ∧ (truthyO s.githubUsername = false → truthyO env.emailLogin = false →
          truthyO env.usernameLogin = false → truthyO env.gitlabUsername = false →
          guessGitAccount env s = s) := by
  intro env s
  refine ⟨?_, ?_, ?_, ?_, ?_⟩
  · intro h1
    simp [guessGitAccount, h1]
  · intro h1 h2
    simp [guessGitAccount, h1, h2]
  · intro h1 h2 h3
    simp [guessGitAccount, h1, h2, h3]
  · intro h1 h2 h3 h4
    simp [guessGitAccount, h1, h2, h3, h4]
  · intro h1 h2 h3 h4
    simp [guessGitAccount, h1, h2, h3, h4]

/-- Witness for claim C4: each branch at a concrete input, including the
spec's "octocat" username-search example. -/
theorem claim_C4_guessGitAccount_witness :
    (guessGitAccount ⟨none, none, none⟩
        { githubUsername := some "zeb", githubToken := some "tok" }).gitAccount =
      some { type := .github, username := "zeb", confidence := 1 }
    ∧ (guessGitAccount ⟨some "mail", none, none⟩ {}).gitAccount =
      some { type := .github, username := "mail", confidence := 1 }
    ∧ (guessGitAccount ⟨none, some "octocat", none⟩ {}).gitAccount =
      some { type := .github, username := "octocat", confidence := 1/2 }
    ∧ (guessGitAccount ⟨none, none, some "lab"⟩ {}).gitAccount =
      some { type := .gitlab, username := "lab", confidence := 1/2 }
    ∧ guessGitAccount ⟨none, none, none⟩ {} = ({} : PackageSettings) := by
  refine ⟨?_, ?_, ?_, ?_, ?_⟩
  · have h := (claim_C4_guessGitAccount ⟨none, none, none⟩
      { githubUsername := some "zeb", githubToken := some "tok" }).1 (by decide)
    rw [h]; rfl
  · exact (claim_C4_guessGitAccount ⟨some "mail", none, none⟩ {}).2.1 rfl rfl
  · exact (claim_C4_guessGitAccount ⟨none, some "octocat", none⟩ {}).2.2.1 rfl rfl rfl
  · exact (claim_C4_guessGitAccount ⟨none, none, some "lab"⟩ {}).2.2.2.1 rfl rfl rfl rfl
  · exact (claim_C4_guessGitAccount ⟨none, none, none⟩ {}).2.2.2.2 rfl rfl rfl rfl

end CreateTypescriptPackage

namespace CreateTypescriptPackage

/-- Claim C5: whenever `guessGitAccount` actually resolves an identity
(one of its four sources succeeds) whose username differs from the
previously stored `githubUsername`, the resulting `githubToken` is
cleared; and a resolved GitLab identity clears both `githubUsername` and
`githubToken`. -/
theorem claim_C5_guessGitAccount_clears_token :
    ∀ (env : GuessEnv) (s : PackageSettings),
      (truthyO s.githubUsername || truthyO env.emailLogin ||
        truthyO env.usernameLogin || truthyO env.gitlabUsername) = true →
      ∀ a : GitAccountInfo, (guessGitAccount env s).gitAccount = some a →
        (s.githubUsername ≠ some a.username →
          (guessGitAccount env s).githubToken = none)
        ∧ (a.type = .gitlab →
            (guessGitAccount env s).githubUsername = none
            ∧ (guessGitAccount env s).githubToken = none) := by
  intro env s hsrc a ha
  by_cases h1 : truthyO s.githubUsername
  · simp only [guessGitAccount, h1, if_true, Option.some.injEq] at ha ⊢
    constructor
    · intro hne
      exfalso
      apply hne
      rw [← ha]
      cases hgu : s.githubUsername with
      | none => rw [hgu] at h1; exact absurd h1 (by simp [truthyO])
      | some u => rfl
    · intro htype
      rw [← ha] at htype
      exact absurd htype (by simp)
  · by_cases h2 : truthyO env.emailLogin
    · simp only [guessGitAccount, h1, h2, Bool.false_eq_true, if_false, if_true,
        Option.some.injEq] at ha ⊢
      constructor
      · intro hne
        rw [← ha] at hne
        simp only [beq_eq_false_iff_ne.mpr hne, Bool.false_eq_true, if_false]
      · intro htype
        rw [← ha] at htype
        exact absurd htype (by simp)
    · by_cases h3 : truthyO env.usernameLogin
      · simp only [guessGitAccount, h1, h2, h3, Bool.false_eq_true, if_false,
          if_true, Option.some.injEq] at ha ⊢
        constructor
        · intro hne
          rw [← ha] at hne
          simp only [beq_eq_false_iff_ne.mpr hne, Bool.false_eq_true, if_false]
        · intro htype
          rw [← ha] at htype
          exact absurd htype (by simp)
      · by_cases h4 : truthyO env.gitlabUsername
        · simp only [guessGitAccount, h1, h2, h3, h4, Bool.false_eq_true,
            if_false, if_true, Option.some.injEq] at ha ⊢
          refine ⟨fun _ => ?_, fun _ => ⟨?_, ?_⟩⟩ <;> trivial
        · exfalso
          rw [Bool.eq_false_iff.mpr h1, Bool.eq_false_iff.mpr h2,
            Bool.eq_false_iff.mpr h3, Bool.eq_false_iff.mpr h4] at hsrc
          exact absurd hsrc (by simp)

/-- Witness for claim C5: a GitLab hit while a stale GitHub token is
stored clears both the username and the token. -/
theorem claim_C5_guessGitAccount_clears_token_witness :
    (guessGitAccount ⟨none, none, some "lab"⟩
        { githubToken := some "tok" }).githubToken = none
    ∧ (guessGitAccount ⟨none, none, some "lab"⟩
        { githubToken := some "tok" }).githubUsername = none := by
  have h := claim_C5_guessGitAccount_clears_token ⟨none, none, some "lab"⟩
    { githubToken := some "tok" } (by decide)
    ⟨.gitlab, "lab", 1/2⟩ rfl
  exact ⟨h.1 (by decide), (h.2 rfl).1⟩

end CreateTypescriptPackage

namespace CreateTypescriptPackage

/-! ## Author identity inference (`addAuthorInfo`, src/index.ts) -/

/-- JavaScript `t || undefined` for a string: the empty string demotes to
`undefined`. -/
def orUndefined (t : String) : Option String :=
  if t.isEmpty then none else some t

/-- The GitHub CLI credential file contents (`getGithubCliCredentials`),
when the file exists and parses. -/
structure GhCredentials where
  accessToken : Option String
  user : Option String
  protocol : Option GitProtocol
deriving DecidableEq, Repr

/-- The authenticated profile returned by `getUserInfo` (both fields are
validated non-empty by that function). -/
structure GhUserInfo where
  name : String
  email : String
deriving DecidableEq, Repr

/-- The external world consulted by `addAuthorInfo`: trimmed stdout of the
two git-config probes (`none` when the command failed), the OS username,
the parsed credential file, and the result of the GitHub profile fetch
(`none` when it threw). -/
structure AuthorEnv where
  gitNameOut : Option String
  gitEmailOut : Option String
  osUsername : String
  credentials : Option GhCredentials
  githubUserinfoResult : Option GhUserInfo

/-- The GitHub profile actually consulted: only fetched when the
credential file carries a truthy access token. -/
def githubUserinfo (env : AuthorEnv) : Option GhUserInfo :=
  match env.credentials with
  | some c => if truthyO c.accessToken then env.githubUserinfoResult else none
  | none => none

/-- `addAuthorInfo` of src/index.ts: fills the author fields and the raw
identity signals.  `authorName` falls through explicit value, GitHub
profile name, credential-file user, git config name, OS username;
`authorEmail` falls through explicit value and git config email only (the
source deliberately does not use the GitHub profile email, "as it might be
private"). -/
def addAuthorInfo (env : AuthorEnv) (s : PackageSettings) : PackageSettings :=
  let gitUsername := orUndefined (env.gitNameOut.getD "")
  let gitEmail := orUndefined (env.gitEmailOut.getD "")
  let osUsername := orUndefined env.osUsername
  let ghInfo := githubUserinfo env
  { s with
      authorName := coalesce s.authorName (coalesce (ghInfo.map GhUserInfo.name)
        (coalesce (env.credentials.bind GhCredentials.user)
          (coalesce gitUsername osUsername)))
      authorEmail := coalesce s.authorEmail gitEmail
      gitUsername := coalesce (ghInfo.map GhUserInfo.name)
        (coalesce (env.credentials.bind GhCredentials.user) gitUsername)
      gitEmail := gitEmail
      osUsername := osUsername
      githubUsername := coalesce (ghInfo.map GhUserInfo.name)
        (env.credentials.bind GhCredentials.user)
      githubToken := env.credentials.bind GhCredentials.accessToken
      gitProtocol := coalesce (env.credentials.bind GhCredentials.protocol)
        (some .ssh) }

/-- Environment refuting claim C7: GitHub credentials with a token are
present and the profile fetch succeeds with a profile email, while the
local git config has no email. -/
def authorEnvCex : AuthorEnv :=
  { gitNameOut := none
    gitEmailOut := none
    osUsername := ""
    credentials := some { accessToken := some "tok", user := none, protocol := none }
    githubUserinfoResult := some { name := "GH Name", email := "gh@example.com" } }

/-- Counterexample to claim C7 as stated: the authenticated GitHub profile
email "gh@example.com" is available (and its name is in fact used for
`authorName`), yet `authorEmail` remains unset instead of falling back to
the profile email — the email chain skips the GitHub profile. -/
theorem claim_C7_counterexample_profile_email_unused :
    authorEnvCex.githubUserinfoResult =
      some { name := "GH Name", email := "gh@example.com" }
    ∧ (addAuthorInfo authorEnvCex {}).authorName = some "GH Name"
    ∧ (addAuthorInfo authorEnvCex {}).authorEmail = none :=
  ⟨rfl, rfl, rfl⟩

end CreateTypescriptPackage

namespace CreateTypescriptPackage

/-- Claim C7 as amended: `authorName` follows the priority chain explicit
value, then GitHub profile name, then credential-file user, then git
config name, then OS account name; `authorEmail` follows explicit value,
then git config email only — the GitHub profile email is deliberately not
used, and there is no OS fallback for the email; every absent source
demotes to the next one; the GitHub profile is consulted only when
credentials with a truthy token are present. -/
theorem claim_C7_addAuthorInfo_amended :
    ∀ (env : AuthorEnv) (s : PackageSettings),
      (∀ v, s.authorName = some v → (addAuthorInfo env s).authorName = some v)
      ∧ (s.authorName = none → ∀ info, githubUserinfo env = some info →
          (addAuthorInfo env s).authorName = some info.name)
      ∧ (s.authorName = none → githubUserinfo env = none →
          ∀ c u, env.credentials = some c → c.user = some u →
            (addAuthorInfo env s).authorName = some u)
      ∧ (s.authorName = none → githubUserinfo env = none →
          env.credentials.bind GhCredentials.user = none →
          (addAuthorInfo env s).authorName =
            coalesce (orUndefined (env.gitNameOut.getD ""))
              (orUndefined env.osUsername))
      ∧ (∀ v, s.authorEmail = some v → (addAuthorInfo env s).authorEmail = some v)
      ∧ (s.authorEmail = none →
          (addAuthorInfo env s).authorEmail = orUndefined (env.gitEmailOut.getD ""))
      ∧ (∀ c, env.credentials = some c → truthyO c.accessToken = false →
          githubUserinfo env = none)
      ∧ (env.credentials = none → githubUserinfo env = none) := by
  intro env s
  refine ⟨?_, ?_, ?_, ?_, ?_, ?_, ?_, ?_⟩
  · intro v hv
    simp [addAuthorInfo, coalesce, hv]
  · intro hn info hinfo
    simp [addAuthorInfo, coalesce, hn, hinfo]
  · intro hn hinfo c u hc hu
    simp [addAuthorInfo, coalesce, hn, hinfo, hc, hu]
  · intro hn hinfo huser
    simp [addAuthorInfo, coalesce, hn, hinfo, huser]
  · intro v hv
    simp [addAuthorInfo, coalesce, hv]
  · intro he
    simp [addAuthorInfo, coalesce, he]
  · intro c hc htok
    simp [githubUserinfo, hc, htok]
  · intro hc
    simp [githubUserinfo, hc]

/-- Environment with only a git-config email available. -/
def authorEnvGitEmail : AuthorEnv :=
  { gitNameOut := none
    gitEmailOut := some "git@example.com"
    osUsername := ""
    credentials := none
    githubUserinfoResult := none }

/-- Environment with a tokenless credential file: the profile fetch must
not be consulted even though a (stale) profile response is scripted. -/
def authorEnvNoToken : AuthorEnv :=
  { gitNameOut := none
    gitEmailOut := none
    osUsername := ""
    credentials := some { accessToken := none, user := some "u", protocol := none }
    githubUserinfoResult := some { name := "x", email := "y" } }

/-- Witness for the amended claim C7: the chain at concrete inputs — an
explicit name wins, the profile name is used when the profile is present,
the git config email is used for the email, and a tokenless credential
file suppresses the profile lookup. -/
theorem claim_C7_addAuthorInfo_amended_witness :
    (addAuthorInfo authorEnvCex { authorName := some "Me" }).authorName = some "Me"
    ∧ (addAuthorInfo authorEnvCex {}).authorName = some "GH Name"
    ∧ (addAuthorInfo authorEnvGitEmail {}).authorEmail =
        orUndefined ((some "git@example.com").getD "")
    ∧ githubUserinfo authorEnvNoToken = none := by
  refine ⟨?_, ?_, ?_, ?_⟩
  · exact (claim_C7_addAuthorInfo_amended authorEnvCex
      { authorName := some "Me" }).1 "Me" rfl
  · exact (claim_C7_addAuthorInfo_amended authorEnvCex {}).2.1 rfl
      { name := "GH Name", email := "gh@example.com" } rfl
  · exact (claim_C7_addAuthorInfo_amended authorEnvGitEmail {}).2.2.2.2.2.1 rfl
  · exact (claim_C7_addAuthorInfo_amended authorEnvNoToken {}).2.2.2.2.2.2.1
      { accessToken := none, user := some "u", protocol := none } rfl rfl

/-! ## Review-hub author email edit (`selectAuthorEmail`, src/index.ts) -/

/-- `selectAuthorEmail` of src/index.ts, given the text the user entered
at the prompt.  Note the source assigns the entered email to
`authorName`. -/
def selectAuthorEmail (entered : String) (s : PackageSettings) : PackageSettings :=
  { s with authorName := orUndefined entered }

/-- A settings record exhibiting the `selectAuthorEmail` bug. -/
def settingsC10 : PackageSettings :=
  { authorName := some "Alice", authorEmail := some "old@example.com" }

/-- Claim C10 exhibits a code bug: entering "new@example.com" at the
author-email edit step leaves `authorEmail` at its old value and instead
overwrites `authorName` with the entered email, contradicting the prompt
("What is your email?"), the field the step is named after, and the review
hub menu entry that invokes it. -/
theorem claim_C10_selectAuthorEmail_bug :
    (selectAuthorEmail "new@example.com" settingsC10).authorEmail =
      some "old@example.com"
    ∧ (selectAuthorEmail "new@example.com" settingsC10).authorName =
      some "new@example.com" :=
  ⟨rfl, rfl⟩

end CreateTypescriptPackage

namespace CreateTypescriptPackage

/-! ## Review hub terminal decision (`reviewSettings`, src/index.ts)

The liveness probe `validateGitRepo(settings.repo)` is a single external
boolean (`probeResult`); `awaitWithTimeout(repoExists, 100, true)` is the
race of that probe against the 100ms timeout defaulting to true, modelled
by whether the probe settles within the bound (`settledInTime`).  When
`repo` is falsy the probe is replaced by an immediately-true promise.  The
real-time bound itself is not part of the shallow embedding. -/

/-- Outcome of the probe race used for the menu (`shortTimeoutRepoExists`). -/
structure ReviewEnv where
  probeResult : Bool
  settledInTime : Bool

/-- The fully awaited `repoExists` promise, as used by the create branch. -/
def repoExistsFull (env : ReviewEnv) (s : PackageSettings) : Bool :=
  if truthyO s.repo then env.probeResult else true

/-- `(repoExists && (await awaitWithTimeout(repoExists, 100, true))) ||
false`: the short-timeout view, defaulting to "assume exists" on
timeout. -/
def shortTimeoutRepoExists (env : ReviewEnv) (s : PackageSettings) : Bool :=
  if truthyO s.repo then (if env.settledInTime then env.probeResult else true)
  else true

/-- The `missingKeys` list computed by `reviewSettings`. -/
def missingKeys (env : ReviewEnv) (s : PackageSettings) : List String :=
  (if s.type.isSome then [] else ["type"])
    ++ (if truthyO s.name then [] else ["name"])
    ++ (if truthyO s.path then [] else ["path"])
    ++ (if truthyO s.repo && !shortTimeoutRepoExists env s then ["repo"] else [])

/-- `disabled: missingKeys.length > 0` on the create menu entry. -/
def createDisabled (env : ReviewEnv) (s : PackageSettings) : Bool :=
  decide ((missingKeys env s).length > 0)

/-- What the create branch of the selection switch does. -/
inductive CreateOutcome where
  | terminated
  | reenteredHub
deriving DecidableEq, Repr

/-- The create case of `reviewSettings`: if `repo` is truthy and the fully
awaited probe reports nonexistent, recurse into the hub with the same
settings; otherwise return the settings (terminal state). -/
def createAction (env : ReviewEnv) (s : PackageSettings) : CreateOutcome :=
  if truthyO s.repo && !(repoExistsFull env s) then .reenteredHub else .terminated

/-- Claim C1: "create" is selectable iff `type`, `name`, `path` are truthy
and (`repo` is unset/falsy OR the 100ms-bounded probe — defaulting to
"assume exists" on timeout — confirms existence); in particular it is
disabled whenever `name` is unset.  Selecting "create" while `repo` is set
but the fully awaited probe reports nonexistent re-enters the hub instead
of terminating; it terminates when the probe confirms existence or `repo`
is unset. -/
theorem claim_C1_review_create :
    ∀ (env : ReviewEnv) (s : PackageSettings),
      (createDisabled env s = false ↔
        (s.type.isSome = true ∧ truthyO s.name = true ∧ truthyO s.path = true
          ∧ (truthyO s.repo = false ∨ shortTimeoutRepoExists env s = true)))
      ∧ (truthyO s.name = false → createDisabled env s = true)
      ∧ (truthyO s.repo = true → env.probeResult = false →
          createAction env s = .reenteredHub)
      ∧ (truthyO s.repo = true → env.probeResult = true →
          createAction env s = .terminated)
      ∧ (truthyO s.repo = false → createAction env s = .terminated) := by
  intro env s
  refine ⟨?_, ?_, ?_, ?_, ?_⟩
  · constructor
    · intro h
      simp only [createDisabled, decide_eq_false_iff_not, Nat.not_lt,
        Nat.le_zero, List.length_eq_zero] at h
      simp only [missingKeys, List.append_eq_nil] at h
      refine ⟨?_, ?_, ?_, ?_⟩
      · by_cases ht : s.type.isSome
        · exact ht
        · rw [if_neg ht] at h
          exact absurd h.1.1.1 (by simp)
      · by_cases hn : truthyO s.name
        · exact hn
        · rw [if_neg hn] at h
          exact absurd h.1.1.2 (by simp)
      · by_cases hp : truthyO s.path
        · exact hp
        · rw [if_neg hp] at h
          exact absurd h.1.2 (by simp)
      · by_cases hr : truthyO s.repo
        · right
          by_cases hs : shortTimeoutRepoExists env s
          · exact hs
          · rw [hr, Bool.eq_false_iff.mpr hs] at h
            exact absurd h.2 (by simp)
        · left
          simpa using hr
    · rintro ⟨ht, hn, hp, hr⟩
      simp only [createDisabled, decide_eq_false_iff_not, Nat.not_lt,
        Nat.le_zero, List.length_eq_zero, missingKeys, List.append_eq_nil,
        ht, hn, hp, if_true]
      rcases hr with hr | hr
      · simp [hr]
      · simp [hr]
  · intro hn
    simp only [createDisabled, missingKeys, hn, Bool.false_eq_true, if_false]
    simp
  · intro hr hprobe
    simp [createAction, repoExistsFull, hr, hprobe]
  · intro hr hprobe
    simp [createAction, repoExistsFull, hr, hprobe]
  · intro hr
    simp [createAction, repoExistsFull, hr]

/-- Ready-to-create settings used by the C1 witness. -/
def settingsC1 : PackageSettings :=
  { type := some .library
    name := some "pkg"
    path := some "pkg"
    repo := some "git@github.com:me/pkg.git" }

/-- Witness for claim C1: with all required fields set and a probe that
settles negatively only after the menu was shown (short view assumed
exists), create is selectable, yet selecting it re-enters the hub; with a
positive probe it terminates; with `name` unset it is disabled. -/
theorem claim_C1_review_create_witness :
    createDisabled ⟨false, false⟩ settingsC1 = false
    ∧ createAction ⟨false, false⟩ settingsC1 = .reenteredHub
    ∧ createAction ⟨true, true⟩ settingsC1 = .terminated
    ∧ createDisabled ⟨true, true⟩ { settingsC1 with name := none } = true := by
  have h1 := claim_C1_review_create ⟨false, false⟩ settingsC1
  have h2 := claim_C1_review_create ⟨true, true⟩ settingsC1
  have h3 := claim_C1_review_create ⟨true, true⟩
    { settingsC1 with name := none }
  refine ⟨?_, ?_, ?_, ?_⟩
  · exact h1.1.mpr ⟨rfl, rfl, rfl, Or.inr rfl⟩
  · exact h1.2.2.1 rfl rfl
  · exact h2.2.2.2.1 rfl rfl
  · exact h3.2.1 rfl

end CreateTypescriptPackage
